import Mathlib

/-
Verification development for the telegram2zinde migration tool.

The embedding models, from the TypeScript sources:
- `ParseMessageText` (Text Formatter), from `src/common/contract.ts` and the
  unnamed contract module (identical bodies);
- the contract module state and its operations (`initWithPrivateKey`,
  `getSignerAddress`, `checkOperator`, `addOperator`, `removeOperator`,
  `signerPostNote`), with external collaborators (wallet construction,
  contract connection, network fetch, IPFS uploads, the on-chain postNote
  call) supplied as oracles in an `Env` structure and the externally visible
  calls recorded in an event trace;
- the migration driver from `src/pages/Migrate.tsx` (`loadMessages`, the
  start-button run loop, the list-item selection toggle), with the React
  state updates (`setMessages`, `setProgress`, the error dialog, navigation)
  recorded in an event trace.

JavaScript truthiness on optional strings (absent or empty both falsy) is
modelled explicitly where the source relies on it.
-/

deriving instance DecidableEq for Except

/-- Text span of the export's structured text body (`TextEntity` in the source).
`href` is optional and only meaningful for `text_link` spans. -/
structure TextEntity where
  type : String
  text : String
  href : Option String
deriving DecidableEq, Repr

/-- One entry of the `photos` list of the export message shape
(`Photo` in the unnamed contract module). -/
structure Photo where
  photo : Option String
  width : Option Int
  height : Option Int
deriving DecidableEq, Repr

/-- Exported chat message. This merges the two export shapes of the sources
(`MessageData` in `src/common/contract.ts`, with a single `photo` field, and
`TGExportMessageDataWithPhotos` in the unnamed contract module, with a
`photos` list); only the fields consumed by the modelled functions are kept. -/
structure MessageData where
  id : Nat
  type : String
  date : String
  action : Option String
  photo : Option String
  photos : Option (List Photo)
  file : Option String
  mime_type : Option String
  width : Option Int
  height : Option Int
  text_entities : List TextEntity
deriving DecidableEq, Repr

/-- Rendering of a JavaScript string interpolation of a possibly-undefined
value: `undefined` prints as the literal string "undefined". -/
def jsShow (s : Option String) : String :=
  match s with
  | some v => v
  | none => "undefined"

/-- Text Formatter, from `ParseMessageText` in the source: service messages
return their action description (empty when absent); otherwise the text spans
are folded left-to-right through the per-type markup switch. -/
def ParseMessageText (message : MessageData) : String :=
  if message.type == "service" then
    (message.action).getD ""
  else
    message.text_entities.foldl
      (fun content entity =>
        content ++
          (if entity.type == "bold" then "**" ++ entity.text ++ "**"
           else if entity.type == "italic" then "*" ++ entity.text ++ "*"
           else if entity.type == "strikethrough" then "~~" ++ entity.text ++ "~~"
           else if entity.type == "link" then
             "[" ++ entity.text ++ "](" ++ entity.text ++ ")"
           else if entity.type == "text_link" then
             "[" ++ entity.text ++ "](" ++ jsShow entity.href ++ ")"
           else entity.text))
      ""

/-- Rendering of one text span, written after the specification's wording of
the Text Formatter contract (bold wrapped in double-asterisk, italic in
single-asterisk, strikethrough in double-tilde, link with label and target
both the span's own text, text-link with the explicit target as href, any
other type emitted raw). -/
def specRenderSpan (entity : TextEntity) : String :=
  match entity.type with
  | "bold" => "**" ++ entity.text ++ "**"
  | "italic" => "*" ++ entity.text ++ "*"
  | "strikethrough" => "~~" ++ entity.text ++ "~~"
  | "link" => "[" ++ entity.text ++ "](" ++ entity.text ++ ")"
  | "text_link" => "[" ++ entity.text ++ "](" ++ jsShow entity.href ++ ")"
  | _ => entity.text

/-- Text Formatter contract as stated by the specification: action description
for service messages, otherwise the concatenation, in input order, of each
span's rendering. -/
def specFormat (message : MessageData) : String :=
  if message.type == "service" then (message.action).getD ""
  else String.join (message.text_entities.map specRenderSpan)

/-- A content message with no text spans, used for the empty-body scenario. -/
def sampleEmptyContentMsg : MessageData :=
  { id := 5, type := "message", date := "2022-01-01", action := none,
    photo := none, photos := none, file := none, mime_type := none,
    width := none, height := none, text_entities := [] }

/-- Binary payload returned by a network fetch (the `Blob` of the source:
a reported mime type and a byte size). -/
structure Blob where
  type : String
  size : Nat
deriving DecidableEq, Repr

/-- One attachment record of a note document
(`NoteMetadataAttachmentBase` with an `address` in the source). -/
structure NoteAttachment where
  name : String
  address : String
  mime_type : String
  size_in_bytes : Nat
  alt : String
  width : Option Int
  height : Option Int
deriving DecidableEq, Repr

/-- The note document assembled by `signerPostNote`
(`NoteMetadata` in the source). -/
structure NoteMetadata where
  type : String
  sources : List String
  content : String
  attachments : List NoteAttachment
  date_published : String
  external_urls : List String
deriving DecidableEq, Repr

/-- Module-level mutable state of the contract module: the contract handle
(`gContract`, present after successful initialization), the signer address,
and the resolved character identifier. -/
structure CState where
  gContract : Option Unit
  signerAddress : String
  characterId : Nat
deriving DecidableEq, Repr

/-- External collaborators of the contract module, supplied as oracles:
wallet construction, contract connection, the indexer lookups, the Metamask
provider, network fetch of a media binary (collapsing `fetch` and `blob()`),
the two IPFS uploads, the on-chain `postNote` call, and date-to-ISO
formatting. -/
structure Env where
  wallet : String → Except String String
  connect : String → Except String Unit
  ownerOf : Nat → Except String (Option String)
  permissionsFor : Nat → String → Except String (List String)
  mmConnect : Except String Unit
  grant : Nat → String → List String → Except String Unit
  fetch : String → Except String Blob
  uploadFile : Blob → Except String String
  uploadJson : NoteMetadata → Except String String
  postNote : Nat → String → Except String Unit
  isoDate : String → String

/-- Externally visible calls made by `signerPostNote`, recorded in order. -/
inductive Ev where
  | fetch (url : String)
  | upFile (b : Blob)
  | upJson (note : NoteMetadata)
  | chainPost (characterId : Nat) (uri : String)
deriving DecidableEq, Repr

/-- The module's `initWithPrivateKey`: rejects an empty key, normalizes the
`0x` prefix, constructs the wallet (recording its address), then constructs
and connects the contract; any failure inside the try block resets the handle
and the signer address to the uninitialized state and rethrows. -/
def initWithPrivateKey (env : Env) (st : CState) (privateKey : String) :
    CState × Except String Unit :=
  if privateKey = "" then (st, Except.error "No private key provided")
  else
    let key := if privateKey.startsWith "0x" then privateKey else "0x" ++ privateKey
    match env.wallet key with
    | Except.error e => ({ st with gContract := none, signerAddress := "" }, Except.error e)
    | Except.ok addr =>
      match env.connect key with
      | Except.error e => ({ st with gContract := none, signerAddress := "" }, Except.error e)
      | Except.ok _ => ({ st with gContract := some (), signerAddress := addr }, Except.ok ())

/-- The module's `getSignerAddress`: fails unless initialized. -/
def getSignerAddress (st : CState) : Except String String :=
  match st.gContract with
  | none => Except.error "Contract not initialized."
  | some _ => Except.ok st.signerAddress

/-- The module's `checkOperator`: fails unless initialized, then reports
whether the signer owns the character or holds the POST_NOTE permission. -/
def checkOperator (env : Env) (st : CState) : Except String Bool :=
  match st.gContract with
  | none => Except.error "Contract not initialized."
  | some _ =>
    match env.ownerOf st.characterId with
    | Except.error e => Except.error e
    | Except.ok owner =>
      let isOwner := match owner with
        | some o => st.signerAddress.toLower == o.toLower
        | none => false
      if isOwner then Except.ok true
      else
        match env.permissionsFor st.characterId st.signerAddress with
        | Except.error e => Except.error e
        | Except.ok permissions => Except.ok (permissions.contains "POST_NOTE")

/-- The module's `addOperator`: fails unless initialized, then grants the
POST_NOTE permission through the Metamask provider. -/
def addOperator (env : Env) (st : CState) : Except String Unit :=
  match st.gContract with
  | none => Except.error "Contract not initialized."
  | some _ =>
    match env.mmConnect with
    | Except.error e => Except.error e
    | Except.ok _ => env.grant st.characterId st.signerAddress ["POST_NOTE"]

/-- The module's `removeOperator`: fails unless initialized, then grants the
empty permission list through the Metamask provider. -/
def removeOperator (env : Env) (st : CState) : Except String Unit :=
  match st.gContract with
  | none => Except.error "Contract not initialized."
  | some _ =>
    match env.mmConnect with
    | Except.error e => Except.error e
    | Except.ok _ => env.grant st.characterId st.signerAddress []

/-- JavaScript `url.split("/").pop()` interpolated into a template string. -/
def jsPop (s : String) : String :=
  match (s.splitOn "/").getLast? with
  | some x => x
  | none => "undefined"

/-- JavaScript `a || b` on an optional string `a` (absent or empty falls
through to `b`). -/
def jsOr (a : Option String) (b : String) : String :=
  match a with
  | some s => if s = "" then b else s
  | none => b

/-- Whether a photo reference carries a usable address; JavaScript
`!photo.photo` is true when the field is absent or the empty string. -/
def hasAddr (p : Photo) : Bool :=
  match p.photo with
  | none => false
  | some url => !(url == "")

/-- The `for (const photo of message.photos)` loop of `signerPostNote`: the
loop `break`s at the first entry whose `photo` address is falsy, and for each
earlier entry fetches the binary, uploads it, and appends an attachment
record. -/
def photosLoop (env : Env) :
    List Photo → List NoteAttachment → List Ev × Except String (List NoteAttachment)
  | [], acc => ([], Except.ok acc)
  | p :: rest, acc =>
    match p.photo with
    | none => ([], Except.ok acc)
    | some url =>
      if url = "" then ([], Except.ok acc)
      else
        match env.fetch url with
        | Except.error e => ([Ev.fetch url], Except.error e)
        | Except.ok blob =>
          match env.uploadFile blob with
          | Except.error e => ([Ev.fetch url, Ev.upFile blob], Except.error e)
          | Except.ok ipfsUri =>
            let att : NoteAttachment :=
              { name := jsPop url, address := ipfsUri, mime_type := blob.type,
                size_in_bytes := blob.size, alt := jsPop url,
                width := p.width, height := p.height }
            (Ev.fetch url :: Ev.upFile blob :: (photosLoop env rest (acc ++ [att])).1,
             (photosLoop env rest (acc ++ [att])).2)

/-- The `if (!!message.file)` block of `signerPostNote`: when a (truthy) file
reference is present, fetch it, upload it, and produce its attachment record,
with the declared mime type taking precedence over the blob's reported one. -/
def filePart (env : Env) (message : MessageData) :
    List Ev × Except String (List NoteAttachment) :=
  match message.file with
  | none => ([], Except.ok [])
  | some f =>
    if f = "" then ([], Except.ok [])
    else
      match env.fetch f with
      | Except.error e => ([Ev.fetch f], Except.error e)
      | Except.ok blob =>
        match env.uploadFile blob with
        | Except.error e => ([Ev.fetch f, Ev.upFile blob], Except.error e)
        | Except.ok ipfsUri =>
          ([Ev.fetch f, Ev.upFile blob],
           Except.ok [{ name := jsPop f, address := ipfsUri,
                        mime_type := jsOr message.mime_type blob.type,
                        size_in_bytes := blob.size, alt := jsPop f,
                        width := message.width, height := message.height }])

/-- The note document assembled by `signerPostNote`: fixed type and
provenance sources, the formatted text, the collected attachments, the
publish timestamp from the message's date, and the external channel link
when a channel name is supplied (an empty channel name is falsy and yields
an empty link list). -/
def mkNote (env : Env) (message : MessageData) (channelName : String)
    (mediaAttachments : List NoteAttachment) : NoteMetadata :=
  { type := "note", sources := ["T2C", "Telegram"],
    content := ParseMessageText message,
    attachments := mediaAttachments,
    date_published := env.isoDate message.date,
    external_urls :=
      if channelName = "" then []
      else ["https://t.me/" ++ channelName ++ "/" ++ toString message.id] }

/-- Final phase of `signerPostNote` continued: upload the assembled note
document to IPFS and on success submit the on-chain `postNote` transaction
with the returned content pointer. -/
def notePhase (env : Env) (st : CState) (message : MessageData)
    (channelName : String) (mediaAttachments : List NoteAttachment) :
    List Ev × Except String Unit :=
  let note := mkNote env message channelName mediaAttachments
  match env.uploadJson note with
  | Except.error e => ([Ev.upJson note], Except.error e)
  | Except.ok noteIPFSUri =>
    ([Ev.upJson note, Ev.chainPost st.characterId noteIPFSUri],
     env.postNote st.characterId noteIPFSUri)

/-- The `if (!!message.photos)` block of `signerPostNote`: when the `photos`
list is present (an empty list is truthy and still runs the loop), run the
photos loop starting from the empty attachment accumulator. -/
def photosPart (env : Env) (message : MessageData) :
    List Ev × Except String (List NoteAttachment) :=
  match message.photos with
  | none => ([], Except.ok [])
  | some photos => photosLoop env photos []

/-- The module's `signerPostNote` (unnamed contract module version, taking a
channel name): requires initialization, uploads the photo list then the file
attachment, assembles and persists the note document, and finally submits the
on-chain transaction; every `await` that throws aborts the remainder. -/
def signerPostNote (env : Env) (st : CState) (message : MessageData)
    (channelName : String) : List Ev × Except String Unit :=
  match st.gContract with
  | none => ([], Except.error "Contract not initialized.")
  | some _ =>
    match photosPart env message with
    | (evsP, Except.error e) => (evsP, Except.error e)
    | (evsP, Except.ok attsP) =>
      match filePart env message with
      | (evsF, Except.error e) => (evsP ++ evsF, Except.error e)
      | (evsF, Except.ok attsF) =>
        (evsP ++ evsF ++ (notePhase env st message channelName (attsP ++ attsF)).1,
         (notePhase env st message channelName (attsP ++ attsF)).2)

/-- Environment in which every external collaborator succeeds. -/
def envAllOk : Env :=
  { wallet := fun _ => Except.ok "0xABCDEF",
    connect := fun _ => Except.ok (),
    ownerOf := fun _ => Except.ok none,
    permissionsFor := fun _ _ => Except.ok ["POST_NOTE"],
    mmConnect := Except.ok (),
    grant := fun _ _ _ => Except.ok (),
    fetch := fun _ => Except.ok { type := "image/jpeg", size := 4 },
    uploadFile := fun _ => Except.ok "ipfs://file",
    uploadJson := fun _ => Except.ok "ipfs://note",
    postNote := fun _ _ => Except.ok (),
    isoDate := fun _ => "2022-01-01T00:00:00.000Z" }

/-- Environment in which only the on-chain transaction fails. -/
def envChainFail : Env :=
  { envAllOk with postNote := fun _ _ => Except.error "transaction rejected" }

/-- Environment in which wallet construction fails. -/
def envWalletFail : Env :=
  { envAllOk with wallet := fun _ => Except.error "invalid private key" }

/-- Environment in which the note-document upload to IPFS fails. -/
def envJsonFail : Env :=
  { envAllOk with uploadJson := fun _ => Except.error "ipfs write failed" }

/-- A contract module state after successful initialization. -/
def stReady : CState :=
  { gContract := some (), signerAddress := "0xabcdef", characterId := 7 }

/-- A media-free content message with a given identifier. -/
def msgNoMedia (n : Nat) : MessageData :=
  { id := n, type := "message", date := "2022-01-01", action := none,
    photo := none, photos := none, file := none, mime_type := none,
    width := none, height := none, text_entities := [] }

/-- Attachment record produced for a photo reference when retrieval and
upload are deterministic functions of the address; entries with no address
never produce a record. -/
def attOf (blobOf : String → Blob) (uriOf : Blob → String) (p : Photo) : NoteAttachment :=
  match p.photo with
  | some url =>
    { name := jsPop url, address := uriOf (blobOf url),
      mime_type := (blobOf url).type, size_in_bytes := (blobOf url).size,
      alt := jsPop url, width := p.width, height := p.height }
  | none =>
    { name := "", address := "", mime_type := "", size_in_bytes := 0, alt := "",
      width := none, height := none }

/-- Deterministic blob retrieval for the C7 witness. -/
def blobOfC : String → Blob := fun u => { type := "image/png", size := u.length }

/-- Deterministic upload address for the C7 witness. -/
def uriOfC : Blob → String := fun b => "ipfs://" ++ toString b.size

/-- All-success deterministic environment for the C7 witness. -/
def envDet : Env :=
  { envAllOk with
    fetch := fun u => Except.ok (blobOfC u),
    uploadFile := fun b => Except.ok (uriOfC b) }

/-- Photo list with an address-less entry in the middle, for the C7 witness. -/
def psSample : List Photo :=
  [{ photo := some "photos/a.jpg", width := some 10, height := some 20 },
   { photo := some "", width := none, height := none },
   { photo := some "photos/b.jpg", width := none, height := none }]

/-- The persisted Progress Record of the session store: the completed
message identifiers plus the migration settings carried alongside (the
run-start reset spreads the rest of the record and replaces only
`finishedIDs`). -/
structure Progress where
  finishedIDs : List Nat
  includeService : Bool
deriving DecidableEq, Repr

/-- The settings object returned by `getSetting()`, as consumed by
`loadMessages`. -/
structure Settings where
  includeService : Bool
deriving DecidableEq, Repr

/-- A Migration Candidate (`messagesPendingMigration` in `Migrate.tsx`):
the wrapped message plus the selection flag and the two status flags. -/
structure messagesPendingMigration where
  message : MessageData
  isToMigrate : Bool
  isPendingMigrate : Bool
  isMigrated : Bool
deriving DecidableEq, Repr

/-- The `loadMessages` parsing step of `Migrate.tsx`: each export message is
wrapped with `isMigrated` read from the Progress Record passed at load time
and `isToMigrate` defaulted from it together with the include-service
setting. -/
def loadMessages (settings : Settings) (currentProgress : Progress)
    (results : List MessageData) : List messagesPendingMigration :=
  results.map fun msg =>
    let isService := msg.type == "service"
    let isMigrated := currentProgress.finishedIDs.contains msg.id
    { message := msg,
      isToMigrate := !isMigrated && (settings.includeService || !isService),
      isPendingMigrate := false,
      isMigrated := isMigrated }

/-- The list-rebuild-by-slicing pattern of `Migrate.tsx`:
`messages.slice(0, index).concat([w]).concat(messages.slice(index + 1))`. -/
def replaceAt (messages : List messagesPendingMigration) (index : Nat)
    (w : messagesPendingMigration) : List messagesPendingMigration :=
  messages.take index ++ [w] ++ messages.drop (index + 1)

/-- The list item's onClick handler: rebuild the list with the clicked
candidate's `isToMigrate` flag flipped (the handler only exists for rendered
indices, so the out-of-range branch is never taken in the UI). -/
def toggleAt (messages : List messagesPendingMigration) (index : Nat) :
    List messagesPendingMigration :=
  match messages[index]? with
  | none => messages
  | some wrappedMessage =>
    replaceAt messages index
      { wrappedMessage with isToMigrate := !wrappedMessage.isToMigrate }

/-- Observable effects of the run loop, in order: list-state updates,
Note Publisher invocations, Progress Record writes, the error dialog, and
the final navigation to the finished view. -/
inductive DEv where
  | setMessages (l : List messagesPendingMigration)
  | publish (m : MessageData)
  | setProgress (p : Progress)
  | errorShown (e : String)
  | nav
deriving DecidableEq, Repr

/-- The body of the start button's `for` loop from index `index` on, given
the closure value `orig` of the `messages` state (every `setMessages` call
rebuilds from this stale closure value, as the source does). Returns the
event trace, the final Progress Record, and the caught error, if any.
The publisher `pub` abstracts `signerPostNote`. -/
def runFrom (pub : MessageData → Except String Unit)
    (orig : List messagesPendingMigration) :
    List messagesPendingMigration → Nat → Progress →
      List DEv × Progress × Option String
  | [], _, prog => ([], prog, none)
  | w :: rest, index, prog =>
    if w.isToMigrate then
      match pub w.message with
      | Except.error e =>
        ([DEv.setMessages (replaceAt orig index { w with isPendingMigrate := true }),
          DEv.publish w.message], prog, some e)
      | Except.ok _ =>
        let prog2 := { prog with finishedIDs := prog.finishedIDs ++ [w.message.id] }
        (DEv.setMessages (replaceAt orig index { w with isPendingMigrate := true }) ::
           DEv.publish w.message ::
           DEv.setProgress prog2 ::
           DEv.setMessages (replaceAt orig index
             { w with isPendingMigrate := false, isMigrated := true }) ::
           (runFrom pub orig rest (index + 1) prog2).1,
         (runFrom pub orig rest (index + 1) prog2).2)
    else runFrom pub orig rest (index + 1) prog

/-- The start button's onClick handler: reset the Progress Record's
`finishedIDs` (spreading the rest of the record), run the loop over the
candidates, then either navigate to the finished view or show the caught
error's message text in the error dialog. -/
def startRun (pub : MessageData → Except String Unit)
    (messages : List messagesPendingMigration) (prog0 : Progress) :
    List DEv × Progress × Option String :=
  let prog1 := { prog0 with finishedIDs := [] }
  match runFrom pub messages messages 0 prog1 with
  | (evs, p, none) => (DEv.setProgress prog1 :: evs ++ [DEv.nav], p, none)
  | (evs, p, some e) => (DEv.setProgress prog1 :: evs ++ [DEv.errorShown e], p, some e)

/-- The Note Publisher invocations recorded in a trace, in order. -/
def publishes (tr : List DEv) : List MessageData :=
  tr.filterMap fun ev =>
    match ev with
    | DEv.publish m => some m
    | _ => none

/-- Oracle-free description of the run loop's event block sequence over a
candidate segment: each selected candidate contributes, in order, the
pending-state update, the publisher invocation, the Progress Record write
extended with its identifier, and the done-state update; unselected
candidates contribute nothing. Also returns the accumulated completed
identifiers. -/
def specRunSteps (includeService : Bool) (orig : List messagesPendingMigration) :
    List messagesPendingMigration → Nat → List Nat → List DEv × List Nat
  | [], _, done => ([], done)
  | w :: rest, index, done =>
    if w.isToMigrate then
      (DEv.setMessages (replaceAt orig index { w with isPendingMigrate := true }) ::
         DEv.publish w.message ::
         DEv.setProgress { finishedIDs := done ++ [w.message.id],
                           includeService := includeService } ::
         DEv.setMessages (replaceAt orig index
           { w with isPendingMigrate := false, isMigrated := true }) ::
         (specRunSteps includeService orig rest (index + 1) (done ++ [w.message.id])).1,
       (specRunSteps includeService orig rest (index + 1) (done ++ [w.message.id])).2)
    else specRunSteps includeService orig rest (index + 1) done

/-- Publisher that always succeeds. -/
def pubOk : MessageData → Except String Unit := fun _ => Except.ok ()

/-- A minimal export message with a given identifier and kind. -/
def msgSample (n : Nat) (t : String) : MessageData :=
  { id := n, type := t, date := "2022-01-01", action := none, photo := none,
    photos := none, file := none, mime_type := none, width := none,
    height := none, text_entities := [] }

/-- Settings with service messages excluded. -/
def settingsSample : Settings := { includeService := false }

/-- An empty Progress Record. -/
def progEmpty : Progress := { finishedIDs := [], includeService := false }

/-- A Progress Record with prior completed state, as it may stand when the
run starts. -/
def progRunStart : Progress := { finishedIDs := [9], includeService := false }

/-- The three-message scenario list: identifiers 1 to 3, none completed,
message 2 of service kind, loaded with `includeService = false`. -/
def candSample : List messagesPendingMigration :=
  loadMessages settingsSample progEmpty
    [msgSample 1 "message", msgSample 2 "service", msgSample 3 "message"]

/-- A candidate that is already Done yet selected again (reachable by
toggling a loaded already-migrated candidate). -/
def candDoneSelected : messagesPendingMigration :=
  { message := msgSample 1 "message", isToMigrate := true,
    isPendingMigrate := false, isMigrated := true }

/-- Publisher that fails with a Transfer-style error on message 3 and
succeeds elsewhere. -/
def pubFail3 : MessageData → Except String Unit :=
  fun m => if m.id == 3 then Except.error "Transfer failed" else Except.ok ()

/-- Candidate for message 1, selected, untouched. -/
def cand1 : messagesPendingMigration :=
  { message := msgSample 1 "message", isToMigrate := true,
    isPendingMigrate := false, isMigrated := false }

/-- Candidate for the service message 2, not selected. -/
def cand2srv : messagesPendingMigration :=
  { message := msgSample 2 "service", isToMigrate := false,
    isPendingMigrate := false, isMigrated := false }

/-- Candidate for message 3, selected. -/
def cand3 : messagesPendingMigration :=
  { message := msgSample 3 "message", isToMigrate := true,
    isPendingMigrate := false, isMigrated := false }

/-- The violating list state: the already-migrated candidate while its
publish call is outstanding. -/
def candDoneSelectedPending : messagesPendingMigration :=
  { message := msgSample 1 "message", isToMigrate := true,
    isPendingMigrate := true, isMigrated := true }

theorem join_cons (s : String) (l : List String) :
    String.join (s :: l) = s ++ String.join l := by
  simp only [String.join_eq, List.map_cons, List.flatten_cons]
  rfl

theorem foldl_markup (f : TextEntity → String) :
    ∀ (l : List TextEntity) (init : String),
      l.foldl (fun content entity => content ++ f entity) init
        = init ++ String.join (l.map f) := by
  intro l
  induction l with
  | nil => intro init; simp [String.join_eq]
  | cons e rest ih =>
    intro init
    simp only [List.foldl_cons, List.map_cons, join_cons, ih, String.append_assoc]

theorem renderSpan_cases (entity : TextEntity) :
    (if entity.type == "bold" then "**" ++ entity.text ++ "**"
     else if entity.type == "italic" then "*" ++ entity.text ++ "*"
     else if entity.type == "strikethrough" then "~~" ++ entity.text ++ "~~"
     else if entity.type == "link" then
       "[" ++ entity.text ++ "](" ++ entity.text ++ ")"
     else if entity.type == "text_link" then
       "[" ++ entity.text ++ "](" ++ jsShow entity.href ++ ")"
     else entity.text) = specRenderSpan entity := by
  symm
  unfold specRenderSpan
  split <;> simp_all

theorem parse_entities_eq (l : List TextEntity) :
    l.foldl
      (fun content entity =>
        content ++
          (if entity.type == "bold" then "**" ++ entity.text ++ "**"
           else if entity.type == "italic" then "*" ++ entity.text ++ "*"
           else if entity.type == "strikethrough" then "~~" ++ entity.text ++ "~~"
           else if entity.type == "link" then
             "[" ++ entity.text ++ "](" ++ entity.text ++ ")"
           else if entity.type == "text_link" then
             "[" ++ entity.text ++ "](" ++ jsShow entity.href ++ ")"
           else entity.text))
      "" = String.join (l.map specRenderSpan) := by
  rw [foldl_markup]
  simp only [renderSpan_cases]
  show "" ++ _ = _
  rfl

/-- C6: the Text Formatter returns the action description (empty when absent)
for service messages regardless of text spans; otherwise it concatenates the
text spans in input order with the per-type markup stated by the
specification (bold double-asterisk, italic single-asterisk, strikethrough
double-tilde, link with its own text as both label and target, text-link
with its explicit target as href, anything else raw); a content message with
an empty span list formats to the empty string. -/
theorem text_formatter_contract (message : MessageData) :
    ParseMessageText message = specFormat message
    ∧ ParseMessageText sampleEmptyContentMsg = "" := by
  refine ⟨?_, rfl⟩
  unfold ParseMessageText specFormat
  by_cases h : (message.type == "service") = true
  · simp [h]
  · simp only [h, Bool.false_eq_true, if_false, parse_entities_eq]

theorem photosLoop_no_chain (env : Env) :
    ∀ (ps : List Photo) (acc : List NoteAttachment) (c : Nat) (u : String),
      Ev.chainPost c u ∉ (photosLoop env ps acc).1 := by
  intro ps
  induction ps with
  | nil => intro acc c u; simp [photosLoop]
  | cons p rest ih =>
    intro acc c u
    cases hp : p.photo with
    | none => simp [photosLoop, hp]
    | some url =>
      by_cases hu : url = ""
      · simp [photosLoop, hp, hu]
      · cases hf : env.fetch url with
        | error e => simp [photosLoop, hp, hu, hf]
        | ok blob =>
          cases hup : env.uploadFile blob with
          | error e => simp [photosLoop, hp, hu, hf, hup]
          | ok ipfsUri =>
            simp [photosLoop, hp, hu, hf, hup]
            exact ih _ c u

theorem photosPart_no_chain (env : Env) (message : MessageData) (c : Nat) (u : String) :
    Ev.chainPost c u ∉ (photosPart env message).1 := by
  unfold photosPart
  cases message.photos with
  | none => simp
  | some photos => exact photosLoop_no_chain env photos [] c u

theorem filePart_no_chain (env : Env) (message : MessageData) (c : Nat) (u : String) :
    Ev.chainPost c u ∉ (filePart env message).1 := by
  unfold filePart
  cases hfile : message.file with
  | none => simp
  | some f =>
    by_cases hf : f = ""
    · simp [hf]
    · cases henv : env.fetch f with
      | error e => simp [hf, henv]
      | ok blob =>
        cases hup : env.uploadFile blob with
        | error e => simp [hf, henv, hup]
        | ok ipfsUri => simp [hf, henv, hup]

/-- C5 counterexample: a rejected on-chain transaction does NOT surface as an
error naming the message identifier. Two messages with distinct identifiers
(42 and 43) produce the very same error text, the chain client's message
propagated unchanged, so the surfaced error cannot name the identifier. -/
theorem signerPostNote_error_not_named :
    (signerPostNote envChainFail stReady (msgNoMedia 42) "chan").2
        = Except.error "transaction rejected"
    ∧ (signerPostNote envChainFail stReady (msgNoMedia 43) "chan").2
        = Except.error "transaction rejected"
    ∧ (msgNoMedia 42).id ≠ (msgNoMedia 43).id := by
  refine ⟨rfl, rfl, by decide⟩

theorem photosLoop_allOk (blobOf : String → Blob) (uriOf : Blob → String) (env : Env)
    (hf : env.fetch = fun u => Except.ok (blobOf u))
    (hu : env.uploadFile = fun b => Except.ok (uriOf b)) :
    ∀ (ps : List Photo) (acc : List NoteAttachment),
      (photosLoop env ps acc).2
        = Except.ok (acc ++ (ps.takeWhile hasAddr).map (attOf blobOf uriOf)) := by
  intro ps
  induction ps with
  | nil => intro acc; simp [photosLoop]
  | cons p rest ih =>
    intro acc
    cases hp : p.photo with
    | none => simp [photosLoop, hp, hasAddr]
    | some url =>
      by_cases hurl : url = ""
      · simp [photosLoop, hp, hurl, hasAddr]
      · simp [photosLoop, hp, hurl, hf, hu, hasAddr, ih, attOf]

/-- C7: with retrieval and upload succeeding deterministically, the photos
loop applied to an empty photo-reference list yields an empty
attachment-record list, and applied to any photo-reference list it produces,
in input order, exactly one record per entry of the longest prefix of entries
carrying an address — it halts at (and excludes) the first entry lacking an
address instead of skipping it. -/
theorem attachment_uploader_stops (blobOf : String → Blob) (uriOf : Blob → String)
    (env : Env)
    (hf : env.fetch = fun u => Except.ok (blobOf u))
    (hu : env.uploadFile = fun b => Except.ok (uriOf b)) (ps : List Photo) :
    (photosLoop env ps []).2
        = Except.ok ((ps.takeWhile hasAddr).map (attOf blobOf uriOf))
    ∧ photosLoop env [] ([] : List NoteAttachment) = ([], Except.ok []) := by
  refine ⟨?_, rfl⟩
  have h := photosLoop_allOk blobOf uriOf env hf hu ps []
  simpa using h

/-- C7 witness: the theorem applied to the concrete deterministic environment
and the concrete photo list whose second entry lacks an address. -/
theorem attachment_uploader_stops_witness :
    envDet.fetch = (fun u => Except.ok (blobOfC u))
    ∧ envDet.uploadFile = (fun b => Except.ok (uriOfC b))
    ∧ ((photosLoop envDet psSample []).2
          = Except.ok ((psSample.takeWhile hasAddr).map (attOf blobOfC uriOfC))
        ∧ photosLoop envDet [] ([] : List NoteAttachment) = ([], Except.ok [])) :=
  ⟨rfl, rfl, attachment_uploader_stops blobOfC uriOfC envDet rfl rfl psSample⟩

/-- C9: if `initWithPrivateKey` is handed a non-empty private key and fails
(wallet construction or contract connection throws), the module is left in
the uninitialized state — the contract handle is cleared and the signer
address is emptied — so every subsequent call to `getSignerAddress`,
`checkOperator`, `addOperator`, `removeOperator`, or `signerPostNote` fails
the initialization check. -/
theorem init_failure_resets (env : Env) (st : CState) (key e : String)
    (hk : ¬ key = "")
    (hfail : (initWithPrivateKey env st key).2 = Except.error e) :
    (initWithPrivateKey env st key).1.gContract = none
    ∧ (initWithPrivateKey env st key).1.signerAddress = ""
    ∧ getSignerAddress (initWithPrivateKey env st key).1
        = Except.error "Contract not initialized."
    ∧ checkOperator env (initWithPrivateKey env st key).1
        = Except.error "Contract not initialized."
    ∧ addOperator env (initWithPrivateKey env st key).1
        = Except.error "Contract not initialized."
    ∧ removeOperator env (initWithPrivateKey env st key).1
        = Except.error "Contract not initialized."
    ∧ ∀ (m : MessageData) (ch : String),
        signerPostNote env (initWithPrivateKey env st key).1 m ch
          = ([], Except.error "Contract not initialized.") := by
  have hst : (initWithPrivateKey env st key).1
      = { st with gContract := none, signerAddress := "" } := by
    cases hw : env.wallet (if key.startsWith "0x" then key else "0x" ++ key) with
    | error e2 => simp [initWithPrivateKey, hk, hw]
    | ok addr =>
      cases hc : env.connect (if key.startsWith "0x" then key else "0x" ++ key) with
      | error e2 => simp [initWithPrivateKey, hk, hw, hc]
      | ok u => exfalso; simp [initWithPrivateKey, hk, hw, hc] at hfail
  rw [hst]
  exact ⟨rfl, rfl, rfl, rfl, rfl, rfl, fun m ch => rfl⟩

/-- C9 witness: the theorem applied to a previously initialized concrete
state, the wallet-failure environment and a concrete non-empty key. -/
theorem init_failure_resets_witness :
    ¬ "abc" = ""
    ∧ (initWithPrivateKey envWalletFail stReady "abc").2
        = Except.error "invalid private key"
    ∧ ((initWithPrivateKey envWalletFail stReady "abc").1.gContract = none
      ∧ (initWithPrivateKey envWalletFail stReady "abc").1.signerAddress = ""
      ∧ getSignerAddress (initWithPrivateKey envWalletFail stReady "abc").1
          = Except.error "Contract not initialized."
      ∧ checkOperator envWalletFail (initWithPrivateKey envWalletFail stReady "abc").1
          = Except.error "Contract not initialized."
      ∧ addOperator envWalletFail (initWithPrivateKey envWalletFail stReady "abc").1
          = Except.error "Contract not initialized."
      ∧ removeOperator envWalletFail (initWithPrivateKey envWalletFail stReady "abc").1
          = Except.error "Contract not initialized."
      ∧ ∀ (m : MessageData) (ch : String),
          signerPostNote envWalletFail (initWithPrivateKey envWalletFail stReady "abc").1 m ch
            = ([], Except.error "Contract not initialized.")) :=
  ⟨by decide, by decide,
   init_failure_resets envWalletFail stReady "abc" "invalid private key"
     (by decide) (by decide)⟩

theorem runFrom_allOk (pub : MessageData → Except String Unit)
    (orig : List messagesPendingMigration) :
    ∀ (rest : List messagesPendingMigration) (index : Nat) (prog : Progress),
      (∀ w ∈ rest, w.isToMigrate = true → pub w.message = Except.ok ()) →
      runFrom pub orig rest index prog
        = ((specRunSteps prog.includeService orig rest index prog.finishedIDs).1,
           { finishedIDs :=
               (specRunSteps prog.includeService orig rest index prog.finishedIDs).2,
             includeService := prog.includeService },
           none) := by
  intro rest
  induction rest with
  | nil => intro index prog h; simp [runFrom, specRunSteps]
  | cons w rest ih =>
    intro index prog h
    by_cases hw : w.isToMigrate = true
    · have hpub : pub w.message = Except.ok () := h w (by simp) hw
      have ih2 := ih (index + 1)
        { prog with finishedIDs := prog.finishedIDs ++ [w.message.id] }
        (fun x hx hsel => h x (by simp [hx]) hsel)
      simp only [runFrom, specRunSteps, hw, if_true, hpub, ih2]
    · have hw2 : w.isToMigrate = false := by
        cases hval : w.isToMigrate
        · rfl
        · exact absurd hval hw
      simp only [runFrom, specRunSteps, hw2, Bool.false_eq_true, if_false]
      exact ih (index + 1) prog (fun x hx hsel => h x (by simp [hx]) hsel)

theorem runFrom_fail (pub : MessageData → Except String Unit)
    (orig : List messagesPendingMigration)
    (failC : messagesPendingMigration) (post : List messagesPendingMigration)
    (e : String)
    (hsel : failC.isToMigrate = true)
    (hfail : pub failC.message = Except.error e) :
    ∀ (pre : List messagesPendingMigration) (index : Nat) (prog : Progress),
      (∀ w ∈ pre, w.isToMigrate = true → pub w.message = Except.ok ()) →
      runFrom pub orig (pre ++ failC :: post) index prog
        = ((specRunSteps prog.includeService orig pre index prog.finishedIDs).1
             ++ [DEv.setMessages (replaceAt orig (index + pre.length)
                    { failC with isPendingMigrate := true }),
                 DEv.publish failC.message],
           { finishedIDs :=
               (specRunSteps prog.includeService orig pre index prog.finishedIDs).2,
             includeService := prog.includeService },
           some e) := by
  intro pre
  induction pre with
  | nil =>
    intro index prog h
    simp [runFrom, specRunSteps, hsel, hfail]
  | cons w pre ih =>
    intro index prog h
    have hidx : index + 1 + pre.length = index + (w :: pre).length := by
      simp [List.length_cons]
      omega
    by_cases hw : w.isToMigrate = true
    · have hpub : pub w.message = Except.ok () := h w (by simp) hw
      have ih2 := ih (index + 1)
        { prog with finishedIDs := prog.finishedIDs ++ [w.message.id] }
        (fun x hx hsel2 => h x (by simp [hx]) hsel2)
      rw [List.cons_append]
      simp only [runFrom, specRunSteps, hw, if_true, hpub, ih2, hidx, List.cons_append]
    · have hw2 : w.isToMigrate = false := by
        cases hval : w.isToMigrate
        · rfl
        · exact absurd hval hw
      have ih2 := ih (index + 1) prog (fun x hx hsel2 => h x (by simp [hx]) hsel2)
      rw [List.cons_append]
      simp only [runFrom, specRunSteps, hw2, Bool.false_eq_true, if_false, ih2, hidx]

theorem publishes_nil : publishes [] = [] := rfl

theorem publishes_setMessages (l : List messagesPendingMigration) (tr : List DEv) :
    publishes (DEv.setMessages l :: tr) = publishes tr := rfl

theorem publishes_publish (m : MessageData) (tr : List DEv) :
    publishes (DEv.publish m :: tr) = m :: publishes tr := rfl

theorem publishes_setProgress (p : Progress) (tr : List DEv) :
    publishes (DEv.setProgress p :: tr) = publishes tr := rfl

theorem publishes_errorShown (e : String) (tr : List DEv) :
    publishes (DEv.errorShown e :: tr) = publishes tr := rfl

theorem publishes_nav (tr : List DEv) : publishes (DEv.nav :: tr) = publishes tr := rfl

theorem publishes_append (a b : List DEv) :
    publishes (a ++ b) = publishes a ++ publishes b := by
  simp [publishes, List.filterMap_append]

theorem bool_not_true {b : Bool} (h : ¬ b = true) : b = false := by
  cases hval : b
  · rfl
  · exact absurd hval h

theorem specRunSteps_publishes (iS : Bool) (orig : List messagesPendingMigration) :
    ∀ (rest : List messagesPendingMigration) (index : Nat) (done : List Nat),
      publishes (specRunSteps iS orig rest index done).1
        = (rest.filter (fun w => w.isToMigrate)).map (fun w => w.message) := by
  intro rest
  induction rest with
  | nil => intro index done; simp [publishes, specRunSteps]
  | cons w rest ih =>
    intro index done
    by_cases hw : w.isToMigrate = true
    · simp only [specRunSteps, hw, if_true, publishes_setMessages, publishes_publish,
        publishes_setProgress, List.filter_cons, List.map_cons,
        ih (index + 1) (done ++ [w.message.id])]
    · have hw2 := bool_not_true hw
      simp only [specRunSteps, hw2, Bool.false_eq_true, if_false, List.filter_cons,
        ih (index + 1) done]

theorem specRunSteps_done (iS : Bool) (orig : List messagesPendingMigration) :
    ∀ (rest : List messagesPendingMigration) (index : Nat) (done : List Nat),
      (specRunSteps iS orig rest index done).2
        = done ++ (rest.filter (fun w => w.isToMigrate)).map (fun w => w.message.id) := by
  intro rest
  induction rest with
  | nil => intro index done; simp [specRunSteps]
  | cons w rest ih =>
    intro index done
    by_cases hw : w.isToMigrate = true
    · simp only [specRunSteps, hw, if_true, List.filter_cons, List.map_cons,
        ih (index + 1) (done ++ [w.message.id])]
      simp [hw]
    · have hw2 := bool_not_true hw
      simp only [specRunSteps, hw2, Bool.false_eq_true, if_false, List.filter_cons,
        ih (index + 1) done]

/-- C1 (amended): with the publisher succeeding on every selected candidate,
the run loop invokes Note Publisher for a candidate exactly when that
candidate has `isToMigrate = true` — the loop does not re-check `isMigrated`,
so an already-Done candidate that is selected is published again — and the
full event trace is the per-candidate block sequence: for each selected
candidate, pending-state update, publisher invocation, Progress Record
append of its identifier, and Done-state update, all before the next
candidate's block begins; the run ends with navigation and the final
Progress Record holds exactly the selected candidates' identifiers. -/
theorem run_loop_success (pub : MessageData → Except String Unit)
    (messages : List messagesPendingMigration) (prog0 : Progress)
    (hok : ∀ w ∈ messages, w.isToMigrate = true → pub w.message = Except.ok ()) :
    startRun pub messages prog0
      = (DEv.setProgress { prog0 with finishedIDs := [] }
           :: (specRunSteps prog0.includeService messages messages 0 []).1 ++ [DEv.nav],
         { finishedIDs :=
             (messages.filter (fun w => w.isToMigrate)).map (fun w => w.message.id),
           includeService := prog0.includeService },
         none)
    ∧ publishes (startRun pub messages prog0).1
        = (messages.filter (fun w => w.isToMigrate)).map (fun w => w.message) := by
  have h1 := runFrom_allOk pub messages messages 0 { prog0 with finishedIDs := [] } hok
  have htrace : startRun pub messages prog0
      = (DEv.setProgress { prog0 with finishedIDs := [] }
           :: (specRunSteps prog0.includeService messages messages 0 []).1 ++ [DEv.nav],
         { finishedIDs := (specRunSteps prog0.includeService messages messages 0 []).2,
           includeService := prog0.includeService },
         none) := by
    simp only [startRun]
    rw [h1]
  constructor
  · rw [htrace, specRunSteps_done]
    simp
  · rw [htrace]
    simp only [publishes_setProgress, publishes_append, specRunSteps_publishes]
    simp [publishes]

/-- C1 counterexample: the run loop invokes Note Publisher for a candidate
that is already Done, provided it is selected — the loop checks only
`isToMigrate`, not `isMigrated`, so "exactly when selected and not already
Done" fails on this input. -/
theorem run_republishes_done_candidate :
    candDoneSelected.isMigrated = true
    ∧ DEv.publish candDoneSelected.message
        ∈ (startRun pubOk [candDoneSelected] progEmpty).1 := by decide

/-- C1 witness: the amended theorem applied to the concrete three-candidate
scenario list with the always-successful publisher and a run-start record
holding prior completed state. -/
theorem run_loop_success_witness :
    (∀ w ∈ candSample, w.isToMigrate = true → pubOk w.message = Except.ok ())
    ∧ (startRun pubOk candSample progRunStart
        = (DEv.setProgress { progRunStart with finishedIDs := [] }
             :: (specRunSteps progRunStart.includeService candSample candSample 0 []).1
             ++ [DEv.nav],
           { finishedIDs :=
               (candSample.filter (fun w => w.isToMigrate)).map (fun w => w.message.id),
             includeService := progRunStart.includeService },
           none)
      ∧ publishes (startRun pubOk candSample progRunStart).1
          = (candSample.filter (fun w => w.isToMigrate)).map (fun w => w.message)) :=
  ⟨by decide, run_loop_success pubOk candSample progRunStart (by decide)⟩

theorem replaceAt_eq_set :
    ∀ (l : List messagesPendingMigration) (i : Nat) (w : messagesPendingMigration),
      i < l.length → replaceAt l i w = l.set i w := by
  intro l
  induction l with
  | nil => intro i w h; simp at h
  | cons x xs ih =>
    intro i w h
    cases i with
    | zero => simp [replaceAt]
    | succ n =>
      have h2 : n < xs.length := by simpa using h
      have h3 := ih n w h2
      simp only [replaceAt, List.take_succ_cons, List.drop_succ_cons, List.set_cons_succ,
        List.cons_append]
      simp only [replaceAt] at h3
      rw [h3]

theorem replaceAt_getElem?_ne (l : List messagesPendingMigration) (i j : Nat)
    (w : messagesPendingMigration) (hi : i < l.length) (hij : i ≠ j) :
    (replaceAt l i w)[j]? = l[j]? := by
  rw [replaceAt_eq_set l i w hi]
  exact List.getElem?_set_ne hij

theorem replaceAt_getElem?_self (l : List messagesPendingMigration) (i : Nat)
    (w : messagesPendingMigration) (hi : i < l.length) :
    (replaceAt l i w)[i]? = some w := by
  rw [replaceAt_eq_set l i w hi]
  exact List.getElem?_set_self hi

theorem replaceAt_length (l : List messagesPendingMigration) (i : Nat)
    (w : messagesPendingMigration) (hi : i < l.length) :
    (replaceAt l i w).length = l.length := by
  rw [replaceAt_eq_set l i w hi]
  exact List.length_set l i w

theorem specRunSteps_setMessages_shape (iS : Bool) (orig : List messagesPendingMigration) :
    ∀ (rest : List messagesPendingMigration) (index : Nat) (done : List Nat)
      (l : List messagesPendingMigration),
      DEv.setMessages l ∈ (specRunSteps iS orig rest index done).1 →
      ∃ (j : Nat) (w : messagesPendingMigration),
        index ≤ j ∧ j < index + rest.length ∧
        (l = replaceAt orig j { w with isPendingMigrate := true }
         ∨ l = replaceAt orig j { w with isPendingMigrate := false, isMigrated := true }) := by
  intro rest
  induction rest with
  | nil => intro index done l h; simp [specRunSteps] at h
  | cons w rest ih =>
    intro index done l h
    by_cases hw : w.isToMigrate = true
    · simp only [specRunSteps, hw, if_true, List.mem_cons] at h
      rcases h with h | h | h | h | h
      · refine ⟨index, w, le_refl _, by simp, Or.inl ?_⟩
        injection h with h2
        rw [hw]
        exact h2
      · exact absurd h (by simp)
      · exact absurd h (by simp)
      · refine ⟨index, w, le_refl _, by simp, Or.inr ?_⟩
        injection h with h2
        rw [hw]
        exact h2
      · obtain ⟨j, w2, hj1, hj2, hsh⟩ := ih (index + 1) (done ++ [w.message.id]) l h
        exact ⟨j, w2, by omega, by simp at hj2 ⊢; omega, hsh⟩
    · have hw2 := bool_not_true hw
      simp only [specRunSteps, hw2, Bool.false_eq_true, if_false] at h
      obtain ⟨j, w2, hj1, hj2, hsh⟩ := ih (index + 1) done l h
      exact ⟨j, w2, by omega, by simp at hj2 ⊢; omega, hsh⟩

/-- C2: when Note Publisher fails on a selected candidate mid-run, the run
stops there: the trace consists of the reset, the completed blocks of the
selected candidates strictly before the failure, the failing candidate's
pending update and single publisher invocation, and the error dialog showing
the failure's message text; the final Progress Record holds exactly the
identifiers of candidates that succeeded strictly before the failure; the
publisher is invoked once per earlier selected candidate and once for the
failing one (no retry, nothing after); and no list-state update ever changes
the failing candidate's `isMigrated` flag (it is never marked Done). -/
theorem run_loop_failure (pub : MessageData → Except String Unit)
    (pre : List messagesPendingMigration) (failC : messagesPendingMigration)
    (post : List messagesPendingMigration) (prog0 : Progress) (e : String)
    (hpre : ∀ w ∈ pre, w.isToMigrate = true → pub w.message = Except.ok ())
    (hsel : failC.isToMigrate = true)
    (hfail : pub failC.message = Except.error e) :
    startRun pub (pre ++ failC :: post) prog0
      = (DEv.setProgress { prog0 with finishedIDs := [] }
           :: ((specRunSteps prog0.includeService (pre ++ failC :: post) pre 0 []).1
               ++ [DEv.setMessages (replaceAt (pre ++ failC :: post) pre.length
                      { failC with isPendingMigrate := true }),
                   DEv.publish failC.message])
           ++ [DEv.errorShown e],
         { finishedIDs :=
             (pre.filter (fun w => w.isToMigrate)).map (fun w => w.message.id),
           includeService := prog0.includeService },
         some e)
    ∧ publishes (startRun pub (pre ++ failC :: post) prog0).1
        = (pre.filter (fun w => w.isToMigrate)).map (fun w => w.message)
            ++ [failC.message]
    ∧ (∀ l, DEv.setMessages l ∈ (startRun pub (pre ++ failC :: post) prog0).1 →
        (l[pre.length]?).map (fun w => w.isMigrated) = some failC.isMigrated) := by
  have h1 := runFrom_fail pub (pre ++ failC :: post) failC post e hsel hfail pre 0
    { prog0 with finishedIDs := [] } hpre
  rw [Nat.zero_add] at h1
  have htrace : startRun pub (pre ++ failC :: post) prog0
      = (DEv.setProgress { prog0 with finishedIDs := [] }
           :: ((specRunSteps prog0.includeService (pre ++ failC :: post) pre 0 []).1
               ++ [DEv.setMessages (replaceAt (pre ++ failC :: post) pre.length
                      { failC with isPendingMigrate := true }),
                   DEv.publish failC.message])
           ++ [DEv.errorShown e],
         { finishedIDs :=
             (specRunSteps prog0.includeService (pre ++ failC :: post) pre 0 []).2,
           includeService := prog0.includeService },
         some e) := by
    simp only [startRun]
    rw [h1]
  refine ⟨?_, ?_, ?_⟩
  · rw [htrace, specRunSteps_done]
    simp
  · rw [htrace]
    simp only [publishes_setProgress, publishes_append, publishes_setMessages,
      publishes_publish, publishes_errorShown, publishes_nil, specRunSteps_publishes]
    simp
  · intro l hmem
    rw [htrace] at hmem
    have hlen : pre.length < (pre ++ failC :: post).length := by simp
    have horig : (pre ++ failC :: post)[pre.length]? = some failC := by
      rw [List.getElem?_append_right (le_refl pre.length)]
      simp
    rcases List.mem_cons.mp hmem with h | hmem2
    · exact absurd h (by simp)
    rcases List.mem_append.mp hmem2 with h3 | h3
    · rcases List.mem_append.mp h3 with h4 | h4
      · obtain ⟨j, w2, hj1, hj2, hsh⟩ :=
          specRunSteps_setMessages_shape prog0.includeService (pre ++ failC :: post)
            pre 0 [] l h4
        have hjne : j ≠ pre.length := by omega
        have hjorig : j < (pre ++ failC :: post).length := by simp; omega
        rcases hsh with rfl | rfl
        · rw [replaceAt_getElem?_ne _ _ _ _ hjorig hjne, horig]
          rfl
        · rw [replaceAt_getElem?_ne _ _ _ _ hjorig hjne, horig]
          rfl
      · rcases List.mem_cons.mp h4 with h5 | h5
        · injection h5 with h2
          rw [h2, replaceAt_getElem?_self _ _ _ hlen]
          rfl
        · rcases List.mem_cons.mp h5 with h6 | h6
          · exact absurd h6 (by simp)
          · exact absurd h6 (List.not_mem_nil _)
    · rcases List.mem_cons.mp h3 with h5 | h5
      · exact absurd h5 (by simp)
      · exact absurd h5 (List.not_mem_nil _)

/-- C2 witness: the theorem applied to the concrete run that fails on
message 3 after messages 1 and 2 are handled. -/
theorem run_loop_failure_witness :
    (∀ w ∈ [cand1, cand2srv], w.isToMigrate = true → pubFail3 w.message = Except.ok ())
    ∧ cand3.isToMigrate = true
    ∧ pubFail3 cand3.message = Except.error "Transfer failed"
    ∧ (startRun pubFail3 ([cand1, cand2srv] ++ cand3 :: []) progRunStart
        = (DEv.setProgress { progRunStart with finishedIDs := [] }
             :: ((specRunSteps progRunStart.includeService
                    ([cand1, cand2srv] ++ cand3 :: []) [cand1, cand2srv] 0 []).1
                 ++ [DEv.setMessages (replaceAt ([cand1, cand2srv] ++ cand3 :: [])
                        (List.length [cand1, cand2srv])
                        { cand3 with isPendingMigrate := true }),
                     DEv.publish cand3.message])
             ++ [DEv.errorShown "Transfer failed"],
           { finishedIDs := (([cand1, cand2srv].filter
                (fun w => w.isToMigrate)).map (fun w => w.message.id)),
             includeService := progRunStart.includeService },
           some "Transfer failed")
      ∧ publishes (startRun pubFail3 ([cand1, cand2srv] ++ cand3 :: []) progRunStart).1
          = ([cand1, cand2srv].filter (fun w => w.isToMigrate)).map (fun w => w.message)
              ++ [cand3.message]
      ∧ (∀ l, DEv.setMessages l
            ∈ (startRun pubFail3 ([cand1, cand2srv] ++ cand3 :: []) progRunStart).1 →
          (l[List.length [cand1, cand2srv]]?).map (fun w => w.isMigrated)
            = some cand3.isMigrated)) :=
  ⟨by decide, by decide, by decide,
   run_loop_failure pubFail3 [cand1, cand2srv] cand3 [] progRunStart "Transfer failed"
     (by decide) (by decide) (by decide)⟩

/-- C3: on run entry the driver's first observable action resets the Progress
Record's completed-identifier set to empty while preserving the rest of the
record as it stands at run-start time; the candidates' `isMigrated`
annotation and default selection are computed from the Progress Record given
at list-load time — they do not depend on the (arbitrary, possibly
different) record standing at run-start time. -/
theorem reset_uses_load_snapshot (settings : Settings) (loadProg runProg : Progress)
    (msgs : List MessageData) (pub : MessageData → Except String Unit) :
    (startRun pub (loadMessages settings loadProg msgs) runProg).1.head?
        = some (DEv.setProgress { runProg with finishedIDs := [] })
    ∧ (loadMessages settings loadProg msgs).map (fun w => w.isMigrated)
        = msgs.map (fun m => loadProg.finishedIDs.contains m.id)
    ∧ (loadMessages settings loadProg msgs).map (fun w => w.isToMigrate)
        = msgs.map (fun m =>
            !(loadProg.finishedIDs.contains m.id)
              && (settings.includeService || !(m.type == "service"))) := by
  refine ⟨?_, by simp [loadMessages], by simp [loadMessages]⟩
  simp only [startRun]
  split
  · simp
  · simp

/-- C4: a loaded candidate defaults to selected exactly when its identifier
is not in the Progress Record's completed set at list-load time and either
the include-service setting is on or the message kind is not service; in the
three-message scenario (identifiers 1 to 3, none completed, service kind for
message 2, `includeService = false`) the initial selection is selected,
not selected, selected. -/
theorem default_selection_rule (settings : Settings) (prog : Progress)
    (msgs : List MessageData) :
    (loadMessages settings prog msgs).map (fun w => w.isToMigrate)
        = msgs.map (fun m =>
            !(prog.finishedIDs.contains m.id)
              && (settings.includeService || !(m.type == "service")))
    ∧ (loadMessages settingsSample progEmpty
          [msgSample 1 "message", msgSample 2 "service", msgSample 3 "message"]).map
            (fun w => w.isToMigrate)
        = [true, false, true] :=
  ⟨by simp [loadMessages], by decide⟩

theorem mem_replaceAt (l : List messagesPendingMigration) (i : Nat)
    (w x : messagesPendingMigration) (hx : x ∈ replaceAt l i w) : x ∈ l ∨ x = w := by
  unfold replaceAt at hx
  rcases List.mem_append.mp hx with h | h
  · rcases List.mem_append.mp h with h2 | h2
    · exact Or.inl (List.take_subset i l h2)
    · exact Or.inr (List.mem_singleton.mp h2)
  · exact Or.inl (List.drop_subset _ _ h)

theorem runFrom_inv (pub : MessageData → Except String Unit)
    (orig : List messagesPendingMigration)
    (h1 : ∀ w ∈ orig, w.isPendingMigrate = false) :
    ∀ (rest : List messagesPendingMigration) (index : Nat) (prog : Progress),
      (∀ w ∈ rest, w.isToMigrate = true → w.isMigrated = false) →
      ∀ l, DEv.setMessages l ∈ (runFrom pub orig rest index prog).1 →
        ∀ x ∈ l, x.isMigrated = true → x.isPendingMigrate = false := by
  intro rest
  induction rest with
  | nil => intro index prog h2 l hl; simp [runFrom] at hl
  | cons w rest ih =>
    intro index prog h2 l hl x hx hxm
    by_cases hw : w.isToMigrate = true
    · have hwm : w.isMigrated = false := h2 w (by simp) hw
      cases hp : pub w.message with
      | error e =>
        simp only [runFrom, hw, if_true, hp, List.mem_cons, List.mem_singleton,
          List.not_mem_nil, or_false] at hl
        rcases hl with hl | hl
        · injection hl with hl2
          subst hl2
          rcases mem_replaceAt _ _ _ _ hx with h3 | h3
          · exact h1 x h3
          · subst h3
            simp at hxm
            exact absurd hxm (by simp [hwm])
        · exact absurd hl (by simp)
      | ok u =>
        simp only [runFrom, hw, if_true, hp, List.mem_cons] at hl
        rcases hl with hl | hl | hl | hl | hl
        · injection hl with hl2
          subst hl2
          rcases mem_replaceAt _ _ _ _ hx with h3 | h3
          · exact h1 x h3
          · subst h3
            simp at hxm
            exact absurd hxm (by simp [hwm])
        · exact absurd hl (by simp)
        · exact absurd hl (by simp)
        · injection hl with hl2
          subst hl2
          rcases mem_replaceAt _ _ _ _ hx with h3 | h3
          · exact h1 x h3
          · subst h3
            rfl
        · exact ih (index + 1) _ (fun y hy hsel => h2 y (by simp [hy]) hsel) l hl x hx hxm
    · have hw2 := bool_not_true hw
      simp only [runFrom, hw2, Bool.false_eq_true, if_false] at hl
      exact ih (index + 1) prog (fun y hy hsel => h2 y (by simp [hy]) hsel) l hl x hx hxm

/-- C8 counterexample: starting a run over a list containing an
already-migrated candidate that was toggled back to selected produces a list
state in which that candidate is simultaneously `isMigrated` and
`isPendingMigrate` — the migration-complete-implies-not-in-progress
invariant is violated by a state the driver hands to the presentation
layer. -/
theorem run_breaks_status_invariant :
    DEv.setMessages [candDoneSelectedPending]
        ∈ (startRun pubOk [candDoneSelected] progEmpty).1
    ∧ candDoneSelectedPending.isMigrated = true
    ∧ candDoneSelectedPending.isPendingMigrate = true := by decide

/-- C10: toggling a candidate at a valid index flips only that candidate's
`isToMigrate` flag: the list keeps its length, every other position is
unchanged, and the toggled candidate keeps its message and both status
flags. -/
theorem toggle_frame (msgs : List messagesPendingMigration) (i : Nat)
    (h : i < msgs.length) :
    (toggleAt msgs i).length = msgs.length
    ∧ (∀ j, ¬ j = i → (toggleAt msgs i)[j]? = msgs[j]?)
    ∧ ∃ c c2, msgs[i]? = some c ∧ (toggleAt msgs i)[i]? = some c2
        ∧ c2.message = c.message ∧ c2.isPendingMigrate = c.isPendingMigrate
        ∧ c2.isMigrated = c.isMigrated ∧ c2.isToMigrate = !c.isToMigrate := by
  have hc : ∃ c, msgs[i]? = some c := by
    rw [List.getElem?_eq_getElem h]
    exact ⟨_, rfl⟩
  obtain ⟨c, hc⟩ := hc
  have ht : toggleAt msgs i = replaceAt msgs i { c with isToMigrate := !c.isToMigrate } := by
    unfold toggleAt
    rw [hc]
  refine ⟨?_, ?_, ?_⟩
  · rw [ht]
    exact replaceAt_length _ _ _ h
  · intro j hj
    rw [ht]
    exact replaceAt_getElem?_ne _ _ _ _ h (fun he => hj he.symm)
  · refine ⟨c, { c with isToMigrate := !c.isToMigrate }, hc, ?_, rfl, rfl, rfl, rfl⟩
    rw [ht]
    exact replaceAt_getElem?_self _ _ _ h

/-- C10 witness: the theorem applied to the concrete three-candidate list at
index 1. -/
theorem toggle_frame_witness :
    (1 : Nat) < candSample.length
    ∧ ((toggleAt candSample 1).length = candSample.length
      ∧ (∀ j, ¬ j = 1 → (toggleAt candSample 1)[j]? = candSample[j]?)
      ∧ ∃ c c2, candSample[1]? = some c ∧ (toggleAt candSample 1)[1]? = some c2
          ∧ c2.message = c.message ∧ c2.isPendingMigrate = c.isPendingMigrate
          ∧ c2.isMigrated = c.isMigrated ∧ c2.isToMigrate = !c.isToMigrate) :=
  ⟨by decide, toggle_frame candSample 1 (by decide)⟩

/-- C5 (amended): for every environment, initialized state, message and
channel identifier, each failing step aborts before the transaction and each
step's own error is what the call raises: if the photos phase fails, the
trace is exactly the photos-phase events (no on-chain attempt) and the call
returns that error; if the photos phase succeeds and the file phase fails,
the trace is exactly the two phases' events (no on-chain attempt) and the
call returns that error; if both succeed and persisting the note document
fails, the trace ends at the failed upload (no on-chain attempt) and the
call returns that error; and only when every step succeeded is the on-chain
`postNote` submitted — exactly once, as the final event, its result returned
to the caller unchanged. -/
theorem signerPostNote_abort_before_chain (env : Env) (st : CState)
    (message : MessageData) (channelName : String) (h : st.gContract = some ()) :
    (∀ e, (photosPart env message).2 = Except.error e →
        (signerPostNote env st message channelName).1 = (photosPart env message).1
        ∧ (∀ c u, Ev.chainPost c u ∉ (signerPostNote env st message channelName).1)
        ∧ (signerPostNote env st message channelName).2 = Except.error e)
    ∧ (∀ attsP e, (photosPart env message).2 = Except.ok attsP →
        (filePart env message).2 = Except.error e →
        (signerPostNote env st message channelName).1
            = (photosPart env message).1 ++ (filePart env message).1
        ∧ (∀ c u, Ev.chainPost c u ∉ (signerPostNote env st message channelName).1)
        ∧ (signerPostNote env st message channelName).2 = Except.error e)
    ∧ (∀ attsP attsF e, (photosPart env message).2 = Except.ok attsP →
        (filePart env message).2 = Except.ok attsF →
        env.uploadJson (mkNote env message channelName (attsP ++ attsF))
            = Except.error e →
        (signerPostNote env st message channelName).1
            = (photosPart env message).1 ++ (filePart env message).1
              ++ [Ev.upJson (mkNote env message channelName (attsP ++ attsF))]
        ∧ (∀ c u, Ev.chainPost c u ∉ (signerPostNote env st message channelName).1)
        ∧ (signerPostNote env st message channelName).2 = Except.error e)
    ∧ (∀ attsP attsF uri, (photosPart env message).2 = Except.ok attsP →
        (filePart env message).2 = Except.ok attsF →
        env.uploadJson (mkNote env message channelName (attsP ++ attsF))
            = Except.ok uri →
        (signerPostNote env st message channelName).1
            = ((photosPart env message).1 ++ (filePart env message).1
                ++ [Ev.upJson (mkNote env message channelName (attsP ++ attsF))])
              ++ [Ev.chainPost st.characterId uri]
        ∧ (∀ c u, Ev.chainPost c u
              ∉ (photosPart env message).1 ++ (filePart env message).1
                ++ [Ev.upJson (mkNote env message channelName (attsP ++ attsF))])
        ∧ (signerPostNote env st message channelName).2
            = env.postNote st.characterId uri) := by
  rcases hP : photosPart env message with ⟨evsP, rP⟩
  have hPn : ∀ c u, Ev.chainPost c u ∉ evsP := fun c u => by
    have h2 := photosPart_no_chain env message c u
    rw [hP] at h2
    exact h2
  rcases hF : filePart env message with ⟨evsF, rF⟩
  have hFn : ∀ c u, Ev.chainPost c u ∉ evsF := fun c u => by
    have h2 := filePart_no_chain env message c u
    rw [hF] at h2
    exact h2
  refine ⟨?_, ?_, ?_, ?_⟩
  · intro e hP2
    have hr : rP = Except.error e := hP2
    subst hr
    refine ⟨?_, ?_, ?_⟩
    · simp [signerPostNote, h, hP]
    · intro c u
      simp only [signerPostNote, h, hP]
      exact hPn c u
    · simp [signerPostNote, h, hP]
  · intro attsP e hP2 hF2
    have hr : rP = Except.ok attsP := hP2
    have hrf : rF = Except.error e := hF2
    subst hr
    subst hrf
    refine ⟨?_, ?_, ?_⟩
    · simp [signerPostNote, h, hP, hF]
    · intro c u
      simp only [signerPostNote, h, hP, hF, List.mem_append]
      intro hmem
      rcases hmem with h3 | h3
      · exact hPn c u h3
      · exact hFn c u h3
    · simp [signerPostNote, h, hP, hF]
  · intro attsP attsF e hP2 hF2 hJ
    have hr : rP = Except.ok attsP := hP2
    have hrf : rF = Except.ok attsF := hF2
    subst hr
    subst hrf
    refine ⟨?_, ?_, ?_⟩
    · simp [signerPostNote, notePhase, h, hP, hF, hJ]
    · intro c u
      simp only [signerPostNote, notePhase, h, hP, hF, hJ, List.mem_append,
        List.mem_singleton]
      intro hmem
      rcases hmem with (h3 | h3) | h3
      · exact hPn c u h3
      · exact hFn c u h3
      · exact Ev.noConfusion h3
    · simp [signerPostNote, notePhase, h, hP, hF, hJ]
  · intro attsP attsF uri hP2 hF2 hJ
    have hr : rP = Except.ok attsP := hP2
    have hrf : rF = Except.ok attsF := hF2
    subst hr
    subst hrf
    refine ⟨?_, ?_, ?_⟩
    · simp [signerPostNote, notePhase, h, hP, hF, hJ]
    · intro c u
      simp only [hP, hF, List.mem_append, List.mem_singleton]
      intro hmem
      rcases hmem with (h3 | h3) | h3
      · exact hPn c u h3
      · exact hFn c u h3
      · exact Ev.noConfusion h3
    · simp [signerPostNote, notePhase, h, hP, hF, hJ]

/-- C5 witness: the amended theorem applied at a concrete initialized state
and an environment whose note-persistence step fails — the call returns that
error, the trace stops at the failed upload, and no on-chain attempt is
recorded. -/
theorem signerPostNote_abort_before_chain_witness :
    stReady.gContract = some ()
    ∧ (photosPart envJsonFail (msgNoMedia 42)).2 = Except.ok []
    ∧ (filePart envJsonFail (msgNoMedia 42)).2 = Except.ok []
    ∧ envJsonFail.uploadJson (mkNote envJsonFail (msgNoMedia 42) "chan" ([] ++ []))
        = Except.error "ipfs write failed"
    ∧ ((signerPostNote envJsonFail stReady (msgNoMedia 42) "chan").1
          = (photosPart envJsonFail (msgNoMedia 42)).1
            ++ (filePart envJsonFail (msgNoMedia 42)).1
            ++ [Ev.upJson (mkNote envJsonFail (msgNoMedia 42) "chan" ([] ++ []))]
      ∧ (∀ c u, Ev.chainPost c u
            ∉ (signerPostNote envJsonFail stReady (msgNoMedia 42) "chan").1)
      ∧ (signerPostNote envJsonFail stReady (msgNoMedia 42) "chan").2
          = Except.error "ipfs write failed") :=
  ⟨rfl, rfl, rfl, rfl,
   (signerPostNote_abort_before_chain envJsonFail stReady (msgNoMedia 42) "chan"
       rfl).2.2.1 [] [] "ipfs write failed" rfl rfl rfl⟩

theorem lt_of_getElem?_some {α : Type} {l : List α} {n : Nat} {a : α}
    (h : l[n]? = some a) : n < l.length := by
  by_contra hle
  push_neg at hle
  rw [List.getElem?_len_le hle] at h
  exact Option.noConfusion h

theorem drop_cons_facts (orig : List messagesPendingMigration) (index : Nat)
    (w : messagesPendingMigration) (rest : List messagesPendingMigration)
    (hdrop : orig.drop index = w :: rest) :
    index < orig.length ∧ orig[index]? = some w ∧ orig.drop (index + 1) = rest := by
  have hlt : index < orig.length := by
    by_contra hle
    push_neg at hle
    rw [List.drop_eq_nil_of_le hle] at hdrop
    exact List.noConfusion hdrop
  have hcons := List.drop_eq_getElem_cons (l := orig) (n := index) hlt
  rw [hdrop] at hcons
  injection hcons with hhead htail
  refine ⟨hlt, ?_, htail.symm⟩
  rw [List.getElem?_eq_getElem hlt]
  exact congrArg some hhead.symm

theorem pending_at_replaceAt (orig : List messagesPendingMigration)
    (horig : ∀ w ∈ orig, w.isPendingMigrate = false)
    (index : Nat) (hidx : index < orig.length) (c : messagesPendingMigration)
    (j : Nat) (x : messagesPendingMigration)
    (hx : (replaceAt orig index c)[j]? = some x)
    (hpend : x.isPendingMigrate = true) : j = index ∧ x = c := by
  by_cases hj : j = index
  · subst hj
    rw [replaceAt_getElem?_self _ _ _ hidx] at hx
    injection hx with hx2
    exact ⟨rfl, hx2.symm⟩
  · rw [replaceAt_getElem?_ne _ _ _ _ hidx (fun he => hj he.symm)] at hx
    have hxm := List.getElem?_mem hx
    exact absurd hpend (by simp [horig x hxm])

theorem runFrom_pending_lifecycle (pub : MessageData → Except String Unit)
    (orig : List messagesPendingMigration)
    (horig : ∀ w ∈ orig, w.isPendingMigrate = false) :
    ∀ (rest : List messagesPendingMigration) (index : Nat) (prog : Progress),
      orig.drop index = rest →
      ∀ (i : Nat) (l : List messagesPendingMigration),
        (runFrom pub orig rest index prog).1[i]? = some (DEv.setMessages l) →
        ∀ (j : Nat) (x : messagesPendingMigration),
          l[j]? = some x → x.isPendingMigrate = true →
          ∃ w, orig[j]? = some w ∧ w.isToMigrate = true
            ∧ x = { w with isPendingMigrate := true }
            ∧ (runFrom pub orig rest index prog).1[i + 1]?
                = some (DEv.publish w.message)
            ∧ (∀ u, pub w.message = Except.ok u →
                ∃ p l2,
                  (runFrom pub orig rest index prog).1[i + 2]?
                      = some (DEv.setProgress p)
                  ∧ (runFrom pub orig rest index prog).1[i + 3]?
                      = some (DEv.setMessages l2)
                  ∧ l2[j]? = some { w with isPendingMigrate := false, isMigrated := true })
            ∧ (∀ e, pub w.message = Except.error e →
                (runFrom pub orig rest index prog).1.length = i + 2
                ∧ (runFrom pub orig rest index prog).2.2 = some e) := by
  intro rest
  induction rest with
  | nil => intro index prog hdrop i l hi; simp [runFrom] at hi
  | cons w rest ih =>
    intro index prog hdrop i l hi j x hx hpend
    obtain ⟨hidx, hwat, hdrop2⟩ := drop_cons_facts orig index w rest hdrop
    by_cases hw : w.isToMigrate = true
    · cases hp : pub w.message with
      | error e0 =>
        cases i with
        | zero =>
          simp only [runFrom, hw, if_true, hp, List.getElem?_cons_zero,
            Option.some.injEq, DEv.setMessages.injEq] at hi
          subst hi
          obtain ⟨hj, hxc⟩ := pending_at_replaceAt orig horig index hidx _ j x hx hpend
          subst hj
          have hxc2 : x = { w with isPendingMigrate := true } := by
            rw [hw]
            exact hxc
          refine ⟨w, hwat, hw, hxc2, ?_, ?_, ?_⟩
          · simp [runFrom, hw, hp]
          · intro u hu
            rw [hu] at hp
            exact Except.noConfusion hp
          · intro e he
            rw [hp] at he
            injection he with he2
            subst he2
            constructor
            · simp [runFrom, hw, hp]
            · simp [runFrom, hw, hp]
        | succ i2 =>
          cases i2 with
          | zero => simp [runFrom, hw, hp] at hi
          | succ i3 => simp [runFrom, hw, hp] at hi
      | ok u0 =>
        cases i with
        | zero =>
          simp only [runFrom, hw, if_true, hp, List.getElem?_cons_zero,
            Option.some.injEq, DEv.setMessages.injEq] at hi
          subst hi
          obtain ⟨hj, hxc⟩ := pending_at_replaceAt orig horig index hidx _ j x hx hpend
          subst hj
          have hxc2 : x = { w with isPendingMigrate := true } := by
            rw [hw]
            exact hxc
          refine ⟨w, hwat, hw, hxc2, ?_, ?_, ?_⟩
          · simp [runFrom, hw, hp]
          · intro u hu
            refine ⟨{ prog with finishedIDs := prog.finishedIDs ++ [w.message.id] },
              replaceAt orig j { w with isPendingMigrate := false, isMigrated := true },
              ?_, ?_, ?_⟩
            · simp [runFrom, hw, hp]
            · simp [runFrom, hw, hp]
            · exact replaceAt_getElem?_self _ _ _ hidx
          · intro e he
            rw [he] at hp
            exact Except.noConfusion hp
        | succ i2 =>
          cases i2 with
          | zero => simp [runFrom, hw, hp] at hi
          | succ i3 =>
            cases i3 with
            | zero => simp [runFrom, hw, hp] at hi
            | succ i4 =>
              cases i4 with
              | zero =>
                simp only [runFrom, hw, if_true, hp, List.getElem?_cons_succ,
                  List.getElem?_cons_zero, Option.some.injEq,
                  DEv.setMessages.injEq] at hi
                subst hi
                obtain ⟨hj, hxc⟩ :=
                  pending_at_replaceAt orig horig index hidx _ j x hx hpend
                rw [hxc] at hpend
                simp at hpend
              | succ i5 =>
                have hi' : (runFrom pub orig rest (index + 1)
                    { prog with finishedIDs := prog.finishedIDs ++ [w.message.id] }).1[i5]?
                      = some (DEv.setMessages l) := by
                  simp only [runFrom, hw, if_true, hp, List.getElem?_cons_succ] at hi
                  exact hi
                obtain ⟨w2, hw2a, hw2b, hw2c, hw2d, hw2e, hw2f⟩ :=
                  ih (index + 1)
                    { prog with finishedIDs := prog.finishedIDs ++ [w.message.id] }
                    hdrop2 i5 l hi' j x hx hpend
                refine ⟨w2, hw2a, hw2b, hw2c, ?_, ?_, ?_⟩
                · simp only [runFrom, hw, if_true, hp, List.getElem?_cons_succ]
                  exact hw2d
                · intro u hu
                  obtain ⟨p2, l2, ha, hb, hc⟩ := hw2e u hu
                  refine ⟨p2, l2, ?_, ?_, hc⟩
                  · simp only [runFrom, hw, if_true, hp, List.getElem?_cons_succ]
                    exact ha
                  · simp only [runFrom, hw, if_true, hp, List.getElem?_cons_succ]
                    exact hb
                · intro e he
                  obtain ⟨ha, hb⟩ := hw2f e he
                  constructor
                  · simp only [runFrom, hw, if_true, hp, List.length_cons, ha]
                  · simp only [runFrom, hw, if_true, hp]
                    exact hb
    · have hwf := bool_not_true hw
      simp only [runFrom, hwf, Bool.false_eq_true, if_false] at hi ⊢
      exact ih (index + 1) prog hdrop2 i l hi j x hx hpend

/-- C8 (amended): provided no candidate of the run's input list is
simultaneously selected and already migrated and none starts pending — both
hold for every freshly loaded list, as the second conjunct proves — every
list state the run loop hands to the presentation layer satisfies the
invariant that a migrated candidate is never marked pending; moreover a
candidate is pending in an emitted list state only when its publish call is
being initiated: the very next event is that candidate's publisher
invocation, and if that call succeeds the Progress Record write and a list
state clearing the flag (and marking the candidate Done) follow before
anything else, while if it fails the run ends two events later with the
error dialog — the failing candidate's pending flag is never cleared.
Without the precondition the invariant fails: toggling an already-Done
candidate back to selected makes the loop set `isPendingMigrate` while
`isMigrated` stays true. -/
theorem run_preserves_status_invariant (pub : MessageData → Except String Unit)
    (msgs : List messagesPendingMigration) (prog0 : Progress)
    (h1 : ∀ w ∈ msgs, w.isPendingMigrate = false)
    (h2 : ∀ w ∈ msgs, w.isToMigrate = true → w.isMigrated = false) :
    (∀ l, DEv.setMessages l ∈ (startRun pub msgs prog0).1 →
        ∀ x ∈ l, x.isMigrated = true → x.isPendingMigrate = false)
    ∧ (∀ (settings : Settings) (loadProg : Progress) (ms : List MessageData),
        ∀ w ∈ loadMessages settings loadProg ms,
          w.isPendingMigrate = false ∧ (w.isToMigrate = true → w.isMigrated = false))
    ∧ (∀ (i j : Nat) (l : List messagesPendingMigration) (x : messagesPendingMigration),
        (startRun pub msgs prog0).1[i]? = some (DEv.setMessages l) →
        l[j]? = some x → x.isPendingMigrate = true →
        ∃ w, msgs[j]? = some w ∧ w.isToMigrate = true
          ∧ x = { w with isPendingMigrate := true }
          ∧ (startRun pub msgs prog0).1[i + 1]? = some (DEv.publish w.message)
          ∧ (∀ u, pub w.message = Except.ok u →
              ∃ p l2, (startRun pub msgs prog0).1[i + 2]? = some (DEv.setProgress p)
                ∧ (startRun pub msgs prog0).1[i + 3]? = some (DEv.setMessages l2)
                ∧ l2[j]? = some { w with isPendingMigrate := false, isMigrated := true })
          ∧ (∀ e, pub w.message = Except.error e →
              (startRun pub msgs prog0).1[i + 2]? = some (DEv.errorShown e)
              ∧ (startRun pub msgs prog0).1.length = i + 3)) := by
  refine ⟨?_, ?_, ?_⟩
  · intro l hl
    rcases hr : runFrom pub msgs msgs 0 { prog0 with finishedIDs := [] }
      with ⟨evs, p, err⟩
    have hl2 : DEv.setMessages l ∈ evs := by
      simp only [startRun, hr] at hl
      cases err with
      | none =>
        simp only [List.mem_cons, List.mem_append, List.mem_singleton,
          List.not_mem_nil, or_false] at hl
        rcases hl with (hl | hl) | hl
        · exact absurd hl (by simp)
        · exact hl
        · exact absurd hl (by simp)
      | some e =>
        simp only [List.mem_cons, List.mem_append, List.mem_singleton,
          List.not_mem_nil, or_false] at hl
        rcases hl with (hl | hl) | hl
        · exact absurd hl (by simp)
        · exact hl
        · exact absurd hl (by simp)
    have := runFrom_inv pub msgs h1 msgs 0 { prog0 with finishedIDs := [] } h2 l
    rw [hr] at this
    exact this hl2
  · intro settings loadProg ms w hw
    simp only [loadMessages, List.mem_map] at hw
    obtain ⟨m, hm, rfl⟩ := hw
    refine ⟨rfl, fun hsel => ?_⟩
    simp only [Bool.and_eq_true, Bool.not_eq_eq_eq_not, Bool.not_true] at hsel
    exact hsel.1
  · have hdrop0 : msgs.drop 0 = msgs := List.drop_zero msgs
    rcases hr : runFrom pub msgs msgs 0 { prog0 with finishedIDs := [] }
      with ⟨evs, p, err⟩
    have hruntr : (runFrom pub msgs msgs 0 { prog0 with finishedIDs := [] }).1 = evs := by
      rw [hr]
    have hrunerr : (runFrom pub msgs msgs 0 { prog0 with finishedIDs := [] }).2.2 = err := by
      rw [hr]
    intro i j l x hi hx hpend
    cases err with
    | none =>
      simp only [startRun, hr] at hi
      cases i with
      | zero => simp at hi
      | succ i2 =>
        have hi2 : (evs ++ [DEv.nav])[i2]? = some (DEv.setMessages l) := by
          rw [List.cons_append, List.getElem?_cons_succ] at hi
          exact hi
        by_cases hlt : i2 < evs.length
        · have hi3 : (runFrom pub msgs msgs 0 { prog0 with finishedIDs := [] }).1[i2]?
              = some (DEv.setMessages l) := by
            rw [hruntr, ← List.getElem?_append_left hlt]
            exact hi2
          obtain ⟨w, hwa, hwb, hwc, hwd, hwe, hwf⟩ :=
            runFrom_pending_lifecycle pub msgs h1 msgs 0
              { prog0 with finishedIDs := [] } hdrop0 i2 l hi3 j x hx hpend
          rw [hruntr] at hwd
          have hlt1 : i2 + 1 < evs.length := lt_of_getElem?_some hwd
          refine ⟨w, hwa, hwb, hwc, ?_, ?_, ?_⟩
          · simp only [startRun, hr]
            rw [List.cons_append, List.getElem?_cons_succ, List.getElem?_append_left hlt1]
            exact hwd
          · intro u hu
            obtain ⟨p2, l2, ha, hb, hc⟩ := hwe u hu
            rw [hruntr] at ha hb
            have hlt2 : i2 + 2 < evs.length := lt_of_getElem?_some ha
            have hlt3 : i2 + 3 < evs.length := lt_of_getElem?_some hb
            refine ⟨p2, l2, ?_, ?_, hc⟩
            · have hidx2 : i2 + 1 + 2 = (i2 + 2) + 1 := by omega
              simp only [startRun, hr, hidx2]
              rw [List.cons_append, List.getElem?_cons_succ, List.getElem?_append_left hlt2]
              exact ha
            · have hidx3 : i2 + 1 + 3 = (i2 + 3) + 1 := by omega
              simp only [startRun, hr, hidx3]
              rw [List.cons_append, List.getElem?_cons_succ, List.getElem?_append_left hlt3]
              exact hb
          · intro e he
            obtain ⟨ha, hb⟩ := hwf e he
            rw [hrunerr] at hb
            exact absurd hb (by simp)
        · push_neg at hlt
          rw [List.getElem?_append_right hlt] at hi2
          cases hk : i2 - evs.length with
          | zero => rw [hk] at hi2; simp at hi2
          | succ k => rw [hk] at hi2; simp at hi2
    | some e0 =>
      simp only [startRun, hr] at hi
      cases i with
      | zero => simp at hi
      | succ i2 =>
        have hi2 : (evs ++ [DEv.errorShown e0])[i2]? = some (DEv.setMessages l) := by
          rw [List.cons_append, List.getElem?_cons_succ] at hi
          exact hi
        by_cases hlt : i2 < evs.length
        · have hi3 : (runFrom pub msgs msgs 0 { prog0 with finishedIDs := [] }).1[i2]?
              = some (DEv.setMessages l) := by
            rw [hruntr, ← List.getElem?_append_left hlt]
            exact hi2
          obtain ⟨w, hwa, hwb, hwc, hwd, hwe, hwf⟩ :=
            runFrom_pending_lifecycle pub msgs h1 msgs 0
              { prog0 with finishedIDs := [] } hdrop0 i2 l hi3 j x hx hpend
          rw [hruntr] at hwd
          have hlt1 : i2 + 1 < evs.length := lt_of_getElem?_some hwd
          refine ⟨w, hwa, hwb, hwc, ?_, ?_, ?_⟩
          · simp only [startRun, hr]
            rw [List.cons_append, List.getElem?_cons_succ, List.getElem?_append_left hlt1]
            exact hwd
          · intro u hu
            obtain ⟨p2, l2, ha, hb, hc⟩ := hwe u hu
            rw [hruntr] at ha hb
            have hlt2 : i2 + 2 < evs.length := lt_of_getElem?_some ha
            have hlt3 : i2 + 3 < evs.length := lt_of_getElem?_some hb
            refine ⟨p2, l2, ?_, ?_, hc⟩
            · have hidx2 : i2 + 1 + 2 = (i2 + 2) + 1 := by omega
              simp only [startRun, hr, hidx2]
              rw [List.cons_append, List.getElem?_cons_succ, List.getElem?_append_left hlt2]
              exact ha
            · have hidx3 : i2 + 1 + 3 = (i2 + 3) + 1 := by omega
              simp only [startRun, hr, hidx3]
              rw [List.cons_append, List.getElem?_cons_succ, List.getElem?_append_left hlt3]
              exact hb
          · intro e he
            obtain ⟨ha, hb⟩ := hwf e he
            rw [hruntr] at ha
            rw [hrunerr] at hb
            injection hb with hb2
            subst hb2
            constructor
            · have hidx2 : i2 + 1 + 2 = (i2 + 2) + 1 := by omega
              simp only [startRun, hr, hidx2]
              rw [List.cons_append, List.getElem?_cons_succ,
                List.getElem?_append_right (le_of_eq ha), ha, Nat.sub_self]
              rfl
            · simp only [startRun, hr, List.length_append, List.length_cons,
                List.length_singleton, List.length_nil, ha]
        · push_neg at hlt
          rw [List.getElem?_append_right hlt] at hi2
          cases hk : i2 - evs.length with
          | zero => rw [hk] at hi2; simp at hi2
          | succ k => rw [hk] at hi2; simp at hi2

/-- C8 witness: the amended theorem applied to the freshly loaded
three-candidate scenario list. -/
theorem run_status_invariant_witness :
    (∀ w ∈ candSample, w.isPendingMigrate = false)
    ∧ (∀ w ∈ candSample, w.isToMigrate = true → w.isMigrated = false)
    ∧ ((∀ l, DEv.setMessages l ∈ (startRun pubOk candSample progEmpty).1 →
          ∀ x ∈ l, x.isMigrated = true → x.isPendingMigrate = false)
      ∧ (∀ (settings : Settings) (loadProg : Progress) (ms : List MessageData),
          ∀ w ∈ loadMessages settings loadProg ms,
            w.isPendingMigrate = false ∧ (w.isToMigrate = true → w.isMigrated = false))
      ∧ (∀ (i j : Nat) (l : List messagesPendingMigration)
            (x : messagesPendingMigration),
          (startRun pubOk candSample progEmpty).1[i]? = some (DEv.setMessages l) →
          l[j]? = some x → x.isPendingMigrate = true →
          ∃ w, candSample[j]? = some w ∧ w.isToMigrate = true
            ∧ x = { w with isPendingMigrate := true }
            ∧ (startRun pubOk candSample progEmpty).1[i + 1]?
                = some (DEv.publish w.message)
            ∧ (∀ u, pubOk w.message = Except.ok u →
                ∃ p l2, (startRun pubOk candSample progEmpty).1[i + 2]?
                      = some (DEv.setProgress p)
                  ∧ (startRun pubOk candSample progEmpty).1[i + 3]?
                      = some (DEv.setMessages l2)
                  ∧ l2[j]? = some { w with isPendingMigrate := false, isMigrated := true })
            ∧ (∀ e, pubOk w.message = Except.error e →
                (startRun pubOk candSample progEmpty).1[i + 2]?
                    = some (DEv.errorShown e)
                ∧ (startRun pubOk candSample progEmpty).1.length = i + 3))) :=
  ⟨by decide, by decide,
   run_preserves_status_invariant pubOk candSample progEmpty (by decide) (by decide)⟩
